import Mathlib

/-!
Verification of the news-service incremental topic-aggregation engine and
its streaming summarization fan-out, as implemented in `src/agent.py`
(`provideNews_advanced` and `generate_news_streaming`) over the response
shapes of `src/schemas.py`.

The embedding is shallow: Python dataclasses become structures, the
per-assignment fold of the categorization stage becomes a pure step
function on the topic store (the mutation of a found topic object is
modelled as replacing the first case-insensitive name match in the list),
and the streaming summarization loop over
`enumerate(asyncio.as_completed(tasks))` is modelled as a function of the
completion order of the tasks.
-/

namespace NewsService

/-- `Topic` (src/agent.py, `@dataclass Topic`): a named news topic with its
ordered list of source URLs. -/
structure Topic where
  name : String
  sources : List String
deriving Repr, DecidableEq

/-- One topic assignment of a categorization response (src/schemas.py,
`categorization_response_schema`): `topicName`, `isNew`, and the optional
`furtherReadings` list. An absent field is modelled as `[]`, matching the
reads `assignment.get("furtherReadings", [])` in src/agent.py. -/
structure Assignment where
  topicName : String
  isNew : Bool
  furtherReadings : List String
deriving Repr, DecidableEq

/-- A categorization response (src/schemas.py): the `skip` flag and the list
of assignments. -/
structure CategorizationResult where
  skip : Bool
  assignments : List Assignment
deriving Repr, DecidableEq

/-- The possible outcomes of the HTTP HEAD request performed by `isValidUrl`
(src/agent.py lines 124-132): a transport error (`aiohttp.ClientError`), a
timeout (`asyncio.TimeoutError`), or a final response carrying a status code
(the response obtained after `allow_redirects=True` follows redirects). -/
inductive ProbeOutcome where
  | clientError
  | timeoutError
  | response (status : Nat)
deriving Repr, DecidableEq

/-- Python's `str.lower()` as used by the name match
`t.name.lower() == topic_name.lower()`: each character mapped to its
lowercase form. (Semantically `String.toLower`; defined here by the same
character map so that concrete instances evaluate.) -/
def lowerStr (s : String) : String := String.mk (s.data.map Char.toLower)

/-- The guard `topic_name.strip() == ""` of `provideNews_advanced`
(line 443): a string strips to the empty string exactly when every one of
its characters is whitespace. -/
def stripIsEmpty (s : String) : Bool := s.data.all Char.isWhitespace

/-- `isValidUrl` (src/agent.py lines 124-132) as a function of the request's
outcome: inside the `try`, the awaited response yields
`response.status < 400`; the `except (aiohttp.ClientError,
asyncio.TimeoutError)` clause returns `False`. The function is total over
the modelled outcome domain: it never raises. -/
def isValidUrl : ProbeOutcome → Bool
  | .clientError => false
  | .timeoutError => false
  | .response status => decide (status < 400)

/-- In both entry points the async `isValidUrl(url)` is invoked WITHOUT
`await` inside a boolean context (`provideNews_advanced` line 428,
`generate_news_streaming` lines 615, 621, 638, 644). Such a call returns a
coroutine object, and a coroutine object is always truthy in Python, so the
guard evaluates to true for every URL, whatever the probe would answer.
This definition embeds that truthiness. -/
def unawaitedIsValidUrl (_url : String) : Bool := true

/-- The per-item filter of `provideNews_advanced` (lines 424-429):
`[url for url in assignment["furtherReadings"] if isValidUrl(url)]`, guarded
by the list being present and non-empty (the guard is redundant: filtering
an empty list is a no-op). The condition is the truthy unawaited coroutine,
so the filter keeps every URL. -/
def filterFurtherReadings (urls : List String) : List String :=
  urls.filter unawaitedIsValidUrl

/-- Appending a URL to a sources list only if absent: the pattern
`if url not in topic.sources: topic.sources.append(url)` of the merge paths
in `provideNews_advanced` (lines 457-469, 485-498). -/
def addIfAbsent (acc : List String) (url : String) : List String :=
  if url ∈ acc then acc else acc ++ [url]

/-- The same guarded append as used by the merge paths of
`generate_news_streaming` (lines 614-616, 637-639):
`if url not in topic.sources and isValidUrl(url)` - the second conjunct is
the truthy unawaited coroutine. -/
def addIfAbsentS (acc : List String) (url : String) : List String :=
  if url ∉ acc ∧ unawaitedIsValidUrl url = true then acc ++ [url] else acc

/-- Merging one content item into an existing topic's sources in
`provideNews_advanced`: append the item URL if absent, then append each
(already filtered) further-reading URL if absent, in order. -/
def mergeSources (sources : List String) (itemUrl : String)
    (frs : List String) : List String :=
  frs.foldl addIfAbsent (addIfAbsent sources itemUrl)

/-- Merging one content item into an existing topic's sources in
`generate_news_streaming`: append the item URL if absent (no probe call on
the item URL), then run the guarded append over the raw furtherReadings. -/
def mergeSourcesS (sources : List String) (itemUrl : String)
    (frs : List String) : List String :=
  frs.foldl addIfAbsentS (addIfAbsent sources itemUrl)

/-- In the source the assignment's topic is the topic OBJECT returned by
`next((t for t in persistent_memory if t.name.lower() == topic_name.lower()),
None)` and is mutated in place; here that mutation is modelled by replacing
the sources of the first topic whose lowered name equals `key`. -/
def updateFirstMatch (key : String) (f : List String → List String) :
    List Topic → List Topic
  | [] => []
  | t :: ts =>
      if lowerStr t.name = key then { t with sources := f t.sources } :: ts
      else t :: updateFirstMatch key f ts

/-- One assignment folded into the store by `provideNews_advanced`
(lines 435-513). The source filters the furtherReadings of all of an item's
assignments (lines 424-429) before this loop; the filter is pure and
per-assignment, so it is applied here at the point of use. The guard
`if not topic_name or topic_name.strip() == ""` skips empty or
whitespace-only names (lines 443-445). Both branches of the `is_new` test
are kept exactly as in the source (lines 451-513). -/
def processAssignment (itemUrl : String) (mem : List Topic)
    (a : Assignment) : List Topic :=
  let further_readings := filterFurtherReadings a.furtherReadings
  if a.topicName = "" ∨ stripIsEmpty a.topicName = true then mem
  else
    let found := mem.find? fun t => lowerStr t.name == lowerStr a.topicName
    if a.isNew then
      match found with
      | some _ =>
          updateFirstMatch (lowerStr a.topicName)
            (fun s => mergeSources s itemUrl further_readings) mem
      | none =>
          mem ++ [{ name := a.topicName,
                    sources := itemUrl :: further_readings }]
    else
      match found with
      | some _ =>
          updateFirstMatch (lowerStr a.topicName)
            (fun s => mergeSources s itemUrl further_readings) mem
      | none =>
          mem ++ [{ name := a.topicName,
                    sources := itemUrl :: further_readings }]

/-- One content item processed by `provideNews_advanced` (lines 400-513):
the item is skipped when the response has no assignments or `skip` is true
(lines 410-421; a falsy/None client response skips identically), otherwise
its assignments are folded into the store in order. -/
def processItem (mem : List Topic) (itemUrl : String)
    (r : CategorizationResult) : List Topic :=
  if r.assignments.isEmpty ∨ r.skip then mem
  else r.assignments.foldl (processAssignment itemUrl) mem

/-- Payload of a "topic" SSE event of `generate_news_streaming`
(lines 627-630 and 649-652). -/
structure TopicEvent where
  topicName : String
  totalTopics : Nat
deriving Repr, DecidableEq

/-- One assignment processed by the streaming loop of
`generate_news_streaming` (lines 599-652), carrying the store together with
the topic events emitted so far. Differences from the batch path, kept as in
the source: the skip guard is only `if not topic_name` (line 604, no
whitespace check), farther-reading URLs are guarded per append, and on
creation the new topic is appended and a topic event
`{topicName, totalTopics: len(persistent_memory)}` is emitted (the length
taken after the append). -/
def streamStep (itemUrl : String) (st : List Topic × List TopicEvent)
    (a : Assignment) : List Topic × List TopicEvent :=
  let mem := st.1
  let evs := st.2
  if a.topicName = "" then st
  else
    let found := mem.find? fun t => lowerStr t.name == lowerStr a.topicName
    if a.isNew then
      match found with
      | some _ =>
          (updateFirstMatch (lowerStr a.topicName)
            (fun s => mergeSourcesS s itemUrl a.furtherReadings) mem, evs)
      | none =>
          let created : Topic :=
            { name := a.topicName,
              sources := itemUrl :: a.furtherReadings.filter unawaitedIsValidUrl }
          (mem ++ [created],
           evs ++ [{ topicName := created.name, totalTopics := mem.length + 1 }])
    else
      match found with
      | some _ =>
          (updateFirstMatch (lowerStr a.topicName)
            (fun s => mergeSourcesS s itemUrl a.furtherReadings) mem, evs)
      | none =>
          let created : Topic :=
            { name := a.topicName,
              sources := itemUrl :: a.furtherReadings.filter unawaitedIsValidUrl }
          (mem ++ [created],
           evs ++ [{ topicName := created.name, totalTopics := mem.length + 1 }])

/-- One content item of the streaming categorization loop (lines 588-652):
skipped when the response has no assignments or `skip` is true
(lines 593-596), otherwise its assignments are folded in order. -/
def streamItem (st : List Topic × List TopicEvent)
    (item : String × CategorizationResult) : List Topic × List TopicEvent :=
  if item.2.assignments.isEmpty ∨ item.2.skip then st
  else item.2.assignments.foldl (streamStep item.1) st

/-- The whole categorization stage of `generate_news_streaming`, starting
from the empty store (line 580): each item is the pair of its URL and the
categorization response obtained for it; the result is the final store and
the topic events in emission order. -/
def runStreamCat (items : List (String × CategorizationResult)) :
    List Topic × List TopicEvent :=
  items.foldl streamItem ([], [])

/-- Payload of a "summary" SSE event of `generate_news_streaming`
(lines 690-694). -/
structure SummaryEvent where
  index : Nat
  topic : String
  summary : String
deriving Repr, DecidableEq

/-- The streaming loop `for idx, coro in enumerate(asyncio.as_completed(tasks))`
(lines 684-694). `order` lists the task indices in the order the tasks
complete (`asyncio.as_completed` yields results in completion order), `S i`
is the summary produced by task `i` (the task summarizing the topic at
snapshot index `i`), and the `Nat` argument is the running `enumerate`
counter `idx`. Each iteration emits
`{index: idx, topic: persistent_memory[idx].name, summary}`; the indexing
`persistent_memory[idx]`, always in range in the source because the loop
runs once per task, is totalized with `""`. -/
def summaryEventsAux (snapshot : List Topic) (S : Nat → String) :
    Nat → List Nat → List SummaryEvent
  | _, [] => []
  | k, j :: rest =>
      { index := k,
        topic := ((snapshot[k]?).map Topic.name).getD "",
        summary := S j } :: summaryEventsAux snapshot S (k + 1) rest

/-- The summary events of one streaming run, in emission order. -/
def summaryEvents (snapshot : List Topic) (S : Nat → String)
    (order : List Nat) : List SummaryEvent :=
  summaryEventsAux snapshot S 0 order

/-- The `db_summaries` buffer after the loop (lines 681-687): pre-sized to
`["" for topic in persistent_memory]` and written once per iteration at the
`enumerate` counter (`db_summaries[idx] = summary`). -/
def dbSummariesAux (S : Nat → String) :
    List String → Nat → List Nat → List String
  | buf, _, [] => buf
  | buf, k, j :: rest => dbSummariesAux S (buf.set k (S j)) (k + 1) rest

/-- The argument handed to `db_updater` at line 696. -/
def dbSummaries (snapshot : List Topic) (S : Nat → String)
    (order : List Nat) : List String :=
  dbSummariesAux S (snapshot.map fun _ => "") 0 order

/-- The whole summarization stage of `generate_news_streaming`
(lines 658-697): with an empty snapshot the generator emits "done" and
returns without calling `db_updater` (lines 658-660); otherwise it emits the
summary events and then calls `db_updater(db_summaries)` exactly once. The
second component lists the arguments of the `db_updater` calls, in call
order. -/
def summarizeStage (snapshot : List Topic) (S : Nat → String)
    (order : List Nat) : List SummaryEvent × List (List String) :=
  if snapshot.isEmpty then ([], [])
  else (summaryEvents snapshot S order, [dbSummaries snapshot S order])

/-- The lowered topic names of a store, in store order. -/
def lowerNames (mem : List Topic) : List String :=
  mem.map fun t => lowerStr t.name

/-- How many topics of the store match `key` case-insensitively. -/
def countCI (mem : List Topic) (key : String) : Nat :=
  (lowerNames mem).count key

/-- Topic names are unique case-insensitively within the store. -/
def NamesUniqueCI (mem : List Topic) : Prop := (lowerNames mem).Nodup

/-- No topic of the store contains the same source URL twice. -/
def NoDupSources (mem : List Topic) : Prop := ∀ t ∈ mem, t.sources.Nodup

/-- Total number of source entries across the store. -/
def totalSources (mem : List Topic) : Nat :=
  (mem.map fun t => t.sources.length).sum

instance (mem : List Topic) : Decidable (NamesUniqueCI mem) := by
  unfold NamesUniqueCI; infer_instance

instance (mem : List Topic) : Decidable (NoDupSources mem) := by
  unfold NoDupSources; infer_instance

/-- Invariant tying the emitted topic events to the store: the events carry
totalTopics 1, 2, ..., n and the created topics' names in creation order. -/
def StreamInv (st : List Topic × List TopicEvent) : Prop :=
  st.2.map TopicEvent.totalTopics
      = (List.range st.1.length).map (fun n => n + 1) ∧
  st.2.map TopicEvent.topicName = st.1.map Topic.name

/-- A property preserved by each step of a left fold is preserved by the
whole fold. -/
theorem foldl_preserves {α β : Type} (P : β → Prop) (f : β → α → β)
    (h : ∀ b a, P b → P (f b a)) :
    ∀ (l : List α) (b : β), P b → P (l.foldl f b)
  | [], _, hb => hb
  | a :: l, b, hb => foldl_preserves P f h l (f b a) (h b a hb)

/-- Both branches of the `is_new` test of `provideNews_advanced` perform the
same merge (when a case-insensitive match exists) or the same creation (when
none exists), so the fold step collapses to a single case analysis. -/
theorem processAssignment_eq (u : String) (mem : List Topic) (a : Assignment) :
    processAssignment u mem a =
      if a.topicName = "" ∨ stripIsEmpty a.topicName = true then mem
      else
        match mem.find? fun t => lowerStr t.name == lowerStr a.topicName with
        | some _ =>
            updateFirstMatch (lowerStr a.topicName)
              (fun s => mergeSources s u (filterFurtherReadings a.furtherReadings)) mem
        | none =>
            mem ++ [{ name := a.topicName,
                      sources := u :: filterFurtherReadings a.furtherReadings }] := by
  unfold processAssignment
  cases h : a.isNew <;> rfl

/-- The same collapse for the streaming fold step. -/
theorem streamStep_eq (u : String) (mem : List Topic) (evs : List TopicEvent)
    (a : Assignment) :
    streamStep u (mem, evs) a =
      if a.topicName = "" then (mem, evs)
      else
        match mem.find? fun t => lowerStr t.name == lowerStr a.topicName with
        | some _ =>
            (updateFirstMatch (lowerStr a.topicName)
              (fun s => mergeSourcesS s u a.furtherReadings) mem, evs)
        | none =>
            (mem ++ [{ name := a.topicName,
                       sources := u :: a.furtherReadings.filter unawaitedIsValidUrl }],
             evs ++ [{ topicName := a.topicName, totalTopics := mem.length + 1 }]) := by
  unfold streamStep
  cases h : a.isNew <;> rfl

theorem updateFirstMatch_map_name (key : String) (f : List String → List String)
    (mem : List Topic) :
    (updateFirstMatch key f mem).map Topic.name = mem.map Topic.name := by
  induction mem with
  | nil => rfl
  | cons t ts ih =>
      by_cases h : lowerStr t.name = key
      · simp [updateFirstMatch, h]
      · simp [updateFirstMatch, h, ih]

theorem updateFirstMatch_lowerNames (key : String) (f : List String → List String)
    (mem : List Topic) :
    lowerNames (updateFirstMatch key f mem) = lowerNames mem := by
  induction mem with
  | nil => rfl
  | cons t ts ih =>
      by_cases h : lowerStr t.name = key
      · simp [updateFirstMatch, h, lowerNames]
      · simpa [updateFirstMatch, h, lowerNames] using ih

theorem updateFirstMatch_length (key : String) (f : List String → List String)
    (mem : List Topic) :
    (updateFirstMatch key f mem).length = mem.length := by
  induction mem with
  | nil => rfl
  | cons t ts ih =>
      by_cases h : lowerStr t.name = key
      · simp [updateFirstMatch, h]
      · simp [updateFirstMatch, h, ih]

theorem noDupSources_cons {t : Topic} {ts : List Topic} :
    NoDupSources (t :: ts) ↔ t.sources.Nodup ∧ NoDupSources ts := by
  unfold NoDupSources
  simp [List.forall_mem_cons]

theorem noDupSources_append {l1 l2 : List Topic} :
    NoDupSources (l1 ++ l2) ↔ NoDupSources l1 ∧ NoDupSources l2 := by
  unfold NoDupSources
  simp [List.mem_append, or_imp, forall_and]

theorem updateFirstMatch_noDupSources (key : String)
    (f : List String → List String)
    (hf : ∀ s : List String, s.Nodup → (f s).Nodup) (mem : List Topic)
    (h : NoDupSources mem) : NoDupSources (updateFirstMatch key f mem) := by
  induction mem with
  | nil => exact h
  | cons t ts ih =>
      rw [noDupSources_cons] at h
      by_cases hk : lowerStr t.name = key
      · rw [updateFirstMatch, if_pos hk, noDupSources_cons]
        exact ⟨hf _ h.1, h.2⟩
      · rw [updateFirstMatch, if_neg hk, noDupSources_cons]
        exact ⟨h.1, ih h.2⟩

theorem nodup_snoc {α : Type} {l : List α} {x : α} (h : l.Nodup) (hx : x ∉ l) :
    (l ++ [x]).Nodup := by
  rw [List.nodup_append_comm]
  exact List.nodup_cons.mpr ⟨hx, h⟩

theorem addIfAbsent_nodup {acc : List String} (u : String) (h : acc.Nodup) :
    (addIfAbsent acc u).Nodup := by
  unfold addIfAbsent
  split
  · exact h
  · next hu => exact nodup_snoc h hu

theorem addIfAbsentS_nodup {acc : List String} (u : String) (h : acc.Nodup) :
    (addIfAbsentS acc u).Nodup := by
  unfold addIfAbsentS
  split
  · next hu => exact nodup_snoc h hu.1
  · exact h

theorem mergeSources_nodup (s : List String) (u : String) (frs : List String)
    (h : s.Nodup) : (mergeSources s u frs).Nodup :=
  foldl_preserves List.Nodup addIfAbsent (fun _b x hb => addIfAbsent_nodup x hb)
    frs (addIfAbsent s u) (addIfAbsent_nodup u h)

theorem mergeSourcesS_nodup (s : List String) (u : String) (frs : List String)
    (h : s.Nodup) : (mergeSourcesS s u frs).Nodup :=
  foldl_preserves List.Nodup addIfAbsentS (fun _b x hb => addIfAbsentS_nodup x hb)
    frs (addIfAbsent s u) (addIfAbsent_nodup u h)

theorem addIfAbsent_length_le (acc : List String) (u : String) :
    (addIfAbsent acc u).length ≤ acc.length + 1 := by
  unfold addIfAbsent
  split <;> simp

theorem foldl_addIfAbsent_length (frs : List String) :
    ∀ init : List String,
      (frs.foldl addIfAbsent init).length ≤ init.length + frs.length := by
  induction frs with
  | nil => intro init; simp
  | cons x xs ih =>
      intro init
      have h1 := addIfAbsent_length_le init x
      have h2 := ih (addIfAbsent init x)
      simp only [List.foldl_cons, List.length_cons]
      omega

theorem mergeSources_length_le (s : List String) (u : String) (frs : List String) :
    (mergeSources s u frs).length ≤ s.length + 1 + frs.length := by
  have h1 := foldl_addIfAbsent_length frs (addIfAbsent s u)
  have h2 := addIfAbsent_length_le s u
  unfold mergeSources
  omega

theorem filter_unawaited_id (l : List String) : l.filter unawaitedIsValidUrl = l := by
  induction l with
  | nil => rfl
  | cons x xs ih => simp [List.filter_cons, unawaitedIsValidUrl, ih]

theorem filterFurtherReadings_id (l : List String) : filterFurtherReadings l = l :=
  filter_unawaited_id l

theorem totalSources_append (l1 l2 : List Topic) :
    totalSources (l1 ++ l2) = totalSources l1 + totalSources l2 := by
  simp [totalSources]

theorem updateFirstMatch_totalSources_le (key : String)
    (f : List String → List String) (c : Nat)
    (hf : ∀ s : List String, (f s).length ≤ s.length + c) (mem : List Topic) :
    totalSources (updateFirstMatch key f mem) ≤ totalSources mem + c := by
  induction mem with
  | nil => simp [updateFirstMatch, totalSources]
  | cons t ts ih =>
      by_cases hk : lowerStr t.name = key
      · rw [updateFirstMatch, if_pos hk]
        have := hf t.sources
        simp only [totalSources, List.map_cons, List.sum_cons]
        omega
      · rw [updateFirstMatch, if_neg hk]
        simp only [totalSources, List.map_cons, List.sum_cons] at ih ⊢
        omega

theorem processAssignment_length_le (u : String) (mem : List Topic)
    (a : Assignment) : (processAssignment u mem a).length ≤ mem.length + 1 := by
  rw [processAssignment_eq]
  split
  · omega
  · cases hf : mem.find? fun t => lowerStr t.name == lowerStr a.topicName with
    | some t => rw [updateFirstMatch_length]; omega
    | none => simp

theorem foldl_processAssignment_length (u : String) (as : List Assignment) :
    ∀ mem : List Topic,
      (as.foldl (processAssignment u) mem).length ≤ mem.length + as.length := by
  induction as with
  | nil => intro mem; simp
  | cons a as ih =>
      intro mem
      have h1 := processAssignment_length_le u mem a
      have h2 := ih (processAssignment u mem a)
      simp only [List.foldl_cons, List.length_cons]
      omega

theorem processAssignment_NamesUniqueCI (u : String) (m : List Topic)
    (b : Assignment) (h : NamesUniqueCI m) :
    NamesUniqueCI (processAssignment u m b) := by
  rw [processAssignment_eq]
  split
  · exact h
  · cases hf : m.find? fun t => lowerStr t.name == lowerStr b.topicName with
    | some t =>
        rw [NamesUniqueCI, updateFirstMatch_lowerNames]
        exact h
    | none =>
        have hnotin : lowerStr b.topicName ∉ lowerNames m := by
          intro hmem
          obtain ⟨t, ht, htl⟩ := List.mem_map.mp hmem
          have hni := List.find?_eq_none.mp hf t ht
          simp [htl] at hni
        rw [NamesUniqueCI]
        have heq : lowerNames
            (m ++ [{ name := b.topicName,
                     sources := u :: filterFurtherReadings b.furtherReadings }])
            = lowerNames m ++ [lowerStr b.topicName] := by
          simp [lowerNames]
        rw [heq]
        exact nodup_snoc h hnotin

theorem streamStep_inv (u : String) (a : Assignment)
    (st : List Topic × List TopicEvent) (h : StreamInv st) :
    StreamInv (streamStep u st a) := by
  obtain ⟨mem, evs⟩ := st
  obtain ⟨h1, h2⟩ := h
  rw [streamStep_eq]
  split
  · exact ⟨h1, h2⟩
  · cases hf : mem.find? fun t => lowerStr t.name == lowerStr a.topicName with
    | some t =>
        refine ⟨?_, ?_⟩
        · simpa [updateFirstMatch_length] using h1
        · simpa [updateFirstMatch_map_name] using h2
    | none =>
        refine ⟨?_, ?_⟩
        · simp [List.range_succ, h1]
        · simp [h2]

theorem streamItem_inv (st : List Topic × List TopicEvent)
    (item : String × CategorizationResult) (h : StreamInv st) :
    StreamInv (streamItem st item) := by
  unfold streamItem
  split
  · exact h
  · exact foldl_preserves StreamInv (streamStep item.1)
      (fun b a hb => streamStep_inv item.1 a b hb) item.2.assignments st h

/-- Claim C1 (code evaluation at the failing input): with a snapshot of two
topics T1, T2 and T2's summarization task completing first (completion order
`[1, 0]`), the streaming loop emits as its FIRST summary event the payload
`{index: 0, topic: "T1", summary: <T2's summary>}`: the event carrying the
summary of the topic at snapshot index 1 (named "T2") is labelled with index
0 and name "T1", because `enumerate(asyncio.as_completed(tasks))` pairs each
completed result with the completion position, not with the index of the
task that produced it. The claim - that the event carrying a topic's summary
carries that topic's snapshot index and name even when completion order
differs from snapshot order - is false on the code. -/
theorem C1_summary_event_misattributed :
    summaryEvents [{ name := "T1", sources := ["a"] }, { name := "T2", sources := ["b"] }]
        (fun i => if i = 0 then "summary of T1" else "summary of T2") [1, 0]
      = [{ index := 0, topic := "T1", summary := "summary of T2" },
         { index := 1, topic := "T2", summary := "summary of T1" }] ∧
    ("summary of T2" : String) ≠ "summary of T1" := by
  constructor <;> decide

/-- Claim C2 (code evaluation at the failing input): with the same two-topic
snapshot and completion order `[1, 0]`, the summarization stage calls the
persistence collaborator exactly once and after all tasks complete (the
singleton second component), but the list it hands over is
`[<T2's summary>, <T1's summary>]`: position 0 holds the summary of the
topic at snapshot index 1, because `db_summaries[idx]` is written at the
`enumerate` counter (completion position), not at the snapshot index of the
completed task. The required ordering - result at position i is the summary
of the topic at snapshot position i - fails. -/
theorem C2_persist_gets_completion_order :
    summarizeStage [{ name := "T1", sources := ["a"] }, { name := "T2", sources := ["b"] }]
        (fun i => if i = 0 then "summary of T1" else "summary of T2") [1, 0]
      = ([{ index := 0, topic := "T1", summary := "summary of T2" },
          { index := 1, topic := "T2", summary := "summary of T1" }],
         [["summary of T2", "summary of T1"]]) ∧
    (["summary of T2", "summary of T1"] : List String)
      ≠ ["summary of T1", "summary of T2"] := by
  constructor <;> decide

/-- Claim C3 counterexample: at topic creation the item URL and the
furtherReadings are concatenated without any duplicate check, so a single
assignment whose furtherReadings repeat the item's URL creates a topic
containing the same source URL twice - the claimed invariant fails exactly
at topic creation. -/
theorem C3_duplicate_at_creation_counterexample :
    processAssignment "u" [] { topicName := "T", isNew := true, furtherReadings := ["u"] }
      = [{ name := "T", sources := ["u", "u"] }] ∧
    ¬ NoDupSources (processAssignment "u" []
        { topicName := "T", isNew := true, furtherReadings := ["u"] }) := by
  constructor <;> decide

/-- Claim C3 (amended): merging into an existing topic never appends a URL
already present, so one fold step preserves duplicate-freedom of every
topic's source list - provided that, when the step creates a topic, the item
URL and the furtherReadings it concatenates are pairwise distinct. This
holds in both the batch and the streaming entry point. -/
theorem C3_noDup_amended (u : String) (mem : List Topic) (a : Assignment)
    (evs : List TopicEvent) (hmem : NoDupSources mem)
    (hfresh : (u :: a.furtherReadings).Nodup) :
    NoDupSources (processAssignment u mem a) ∧
    NoDupSources (streamStep u (mem, evs) a).1 := by
  constructor
  · rw [processAssignment_eq]
    split
    · exact hmem
    · cases hf : mem.find? fun t => lowerStr t.name == lowerStr a.topicName with
      | some t =>
          exact updateFirstMatch_noDupSources _ _
            (fun s hs => mergeSources_nodup _ _ _ hs) mem hmem
      | none =>
          rw [noDupSources_append]
          refine ⟨hmem, ?_⟩
          intro t ht
          rw [List.mem_singleton] at ht
          subst ht
          simpa [filterFurtherReadings_id] using hfresh
  · rw [streamStep_eq]
    split
    · exact hmem
    · cases hf : mem.find? fun t => lowerStr t.name == lowerStr a.topicName with
      | some t =>
          exact updateFirstMatch_noDupSources _ _
            (fun s hs => mergeSourcesS_nodup _ _ _ hs) mem hmem
      | none =>
          show NoDupSources (mem ++ [_])
          rw [noDupSources_append]
          refine ⟨hmem, ?_⟩
          intro t ht
          rw [List.mem_singleton] at ht
          subst ht
          simpa [filter_unawaited_id] using hfresh

theorem C3_noDup_amended_witness :
    NoDupSources (processAssignment "u" []
        { topicName := "T", isNew := true, furtherReadings := ["f"] }) ∧
    NoDupSources (streamStep "u" ([], [])
        { topicName := "T", isNew := true, furtherReadings := ["f"] }).1 :=
  C3_noDup_amended "u" [] { topicName := "T", isNew := true, furtherReadings := ["f"] }
    [] (by decide) (by decide)

/-- Claim C4: if two assignments carry topicNames equal up to letter case
(both non-empty and not whitespace-only) and no topic of the store matches
that name case-insensitively yet, then processing the first (with any
`isNew` value) creates the topic and processing the second (with any `isNew`
value) merges into it: exactly one matching topic results. Moreover
case-insensitive name uniqueness is an invariant of every fold step, so it
holds at all times in a run. -/
theorem C4_case_insensitive_merge (mem : List Topic) (u1 u2 : String)
    (a1 a2 : Assignment)
    (hci : lowerStr a1.topicName = lowerStr a2.topicName)
    (h1 : ¬ (a1.topicName = "" ∨ stripIsEmpty a1.topicName = true))
    (h2 : ¬ (a2.topicName = "" ∨ stripIsEmpty a2.topicName = true))
    (hno : ∀ t ∈ mem, lowerStr t.name ≠ lowerStr a1.topicName)
    (huniq : NamesUniqueCI mem) :
    countCI (processAssignment u2 (processAssignment u1 mem a1) a2)
        (lowerStr a1.topicName) = 1 ∧
    NamesUniqueCI (processAssignment u2 (processAssignment u1 mem a1) a2) ∧
    (∀ (u : String) (m : List Topic) (b : Assignment),
        NamesUniqueCI m → NamesUniqueCI (processAssignment u m b)) := by
  have hkey1notin : lowerStr a1.topicName ∉ lowerNames mem := by
    intro hmem
    obtain ⟨t, ht, htl⟩ := List.mem_map.mp hmem
    exact hno t ht htl
  have hfind1 : (mem.find? fun t => lowerStr t.name == lowerStr a1.topicName) = none := by
    rw [List.find?_eq_none]
    intro t ht
    simpa using hno t ht
  have e1 : processAssignment u1 mem a1
      = mem ++ [{ name := a1.topicName,
                  sources := u1 :: filterFurtherReadings a1.furtherReadings }] := by
    rw [processAssignment_eq, if_neg h1, hfind1]
  have hlow1 : lowerNames (processAssignment u1 mem a1)
      = lowerNames mem ++ [lowerStr a1.topicName] := by
    rw [e1]; simp [lowerNames]
  cases hf2 : (processAssignment u1 mem a1).find?
      fun t => lowerStr t.name == lowerStr a2.topicName with
  | none =>
      exfalso
      have hT1 : (⟨a1.topicName, u1 :: filterFurtherReadings a1.furtherReadings⟩ : Topic)
          ∈ processAssignment u1 mem a1 := by
        rw [e1]; simp
      have := List.find?_eq_none.mp hf2 _ hT1
      simp [hci] at this
  | some t =>
      have e2 : processAssignment u2 (processAssignment u1 mem a1) a2
          = updateFirstMatch (lowerStr a2.topicName)
              (fun s => mergeSources s u2 (filterFurtherReadings a2.furtherReadings))
              (processAssignment u1 mem a1) := by
        rw [processAssignment_eq, if_neg h2, hf2]
      refine ⟨?_, ?_, fun u m b hm => processAssignment_NamesUniqueCI u m b hm⟩
      · rw [countCI, e2, updateFirstMatch_lowerNames, hlow1, List.count_append]
        have hz : (lowerNames mem).count (lowerStr a1.topicName) = 0 :=
          List.count_eq_zero.mpr hkey1notin
        simp [hz]
      · rw [NamesUniqueCI, e2, updateFirstMatch_lowerNames, hlow1]
        exact nodup_snoc huniq hkey1notin

theorem C4_case_insensitive_merge_witness :
    countCI (processAssignment "B" (processAssignment "A" []
        { topicName := "Tech", isNew := true, furtherReadings := [] })
        { topicName := "tech", isNew := true, furtherReadings := [] })
      (lowerStr "Tech") = 1 ∧
    NamesUniqueCI (processAssignment "B" (processAssignment "A" []
        { topicName := "Tech", isNew := true, furtherReadings := [] })
        { topicName := "tech", isNew := true, furtherReadings := [] }) ∧
    (∀ (u : String) (m : List Topic) (b : Assignment),
        NamesUniqueCI m → NamesUniqueCI (processAssignment u m b)) :=
  C4_case_insensitive_merge [] "A" "B"
    { topicName := "Tech", isNew := true, furtherReadings := [] }
    { topicName := "tech", isNew := true, furtherReadings := [] }
    (by decide) (by decide) (by decide) (by decide) (by decide)

/-- Claim C5 counterexample: the merge code enforces no limits. One content
item carrying SIX assignments creates six topics (more than 5 assignments
folded into the store), and one assignment carrying FOUR furtherReadings has
all four merged into the new topic's sources (more than 3). The 5/3 bounds
exist only in the external capability's response schema (`maxItems` in
src/schemas.py), not at merge time. -/
theorem C5_limits_not_enforced_counterexample :
    (processItem [] "u"
        ⟨false, [⟨"T1", true, []⟩, ⟨"T2", true, []⟩, ⟨"T3", true, []⟩,
                 ⟨"T4", true, []⟩, ⟨"T5", true, []⟩, ⟨"T6", true, []⟩]⟩).length = 6 ∧
    processAssignment "u" [] ⟨"T", true, ["f1", "f2", "f3", "f4"]⟩
      = [{ name := "T", sources := ["u", "f1", "f2", "f3", "f4"] }] := by
  constructor <;> decide

/-- Claim C5 (amended): the limits are not re-enforced at merge time; they
hold after merge only for schema-conformant responses. For a response with
at most 5 assignments, one content item adds at most 5 topics to the store;
for an assignment with at most 3 furtherReadings, one fold step grows the
total number of source entries by at most 4 (one item URL plus at most
three furtherReadings). -/
theorem C5_limits_only_from_schema (mem : List Topic) (u : String)
    (r : CategorizationResult) (a : Assignment)
    (h5 : r.assignments.length ≤ 5) (h3 : a.furtherReadings.length ≤ 3) :
    (processItem mem u r).length ≤ mem.length + 5 ∧
    totalSources (processAssignment u mem a) ≤ totalSources mem + 4 := by
  constructor
  · unfold processItem
    split
    · omega
    · have := foldl_processAssignment_length u r.assignments mem
      omega
  · rw [processAssignment_eq]
    split
    · omega
    · have hfle : (filterFurtherReadings a.furtherReadings).length ≤ 3 := by
        have := List.length_filter_le unawaitedIsValidUrl a.furtherReadings
        rw [filterFurtherReadings]
        omega
      have hmb : ∀ s : List String,
          (mergeSources s u (filterFurtherReadings a.furtherReadings)).length
            ≤ s.length + (1 + (filterFurtherReadings a.furtherReadings).length) := by
        intro s
        have := mergeSources_length_le s u (filterFurtherReadings a.furtherReadings)
        omega
      cases hf : mem.find? fun t => lowerStr t.name == lowerStr a.topicName with
      | some t =>
          have hb := updateFirstMatch_totalSources_le (lowerStr a.topicName)
            (fun s => mergeSources s u (filterFurtherReadings a.furtherReadings))
            (1 + (filterFurtherReadings a.furtherReadings).length) hmb mem
          show totalSources (updateFirstMatch (lowerStr a.topicName)
              (fun s => mergeSources s u (filterFurtherReadings a.furtherReadings)) mem)
            ≤ totalSources mem + 4
          omega
      | none =>
          rw [totalSources_append]
          simp only [totalSources, List.map_cons, List.map_nil, List.sum_cons,
            List.sum_nil, List.length_cons]
          omega

theorem C5_limits_only_from_schema_witness :
    (processItem [] "u" ⟨false, [⟨"T", true, []⟩]⟩).length
        ≤ ([] : List Topic).length + 5 ∧
    totalSources (processAssignment "u" [] ⟨"T", true, ["f"]⟩)
        ≤ totalSources [] + 4 :=
  C5_limits_only_from_schema [] "u" ⟨false, [⟨"T", true, []⟩]⟩
    ⟨"T", true, ["f"]⟩ (by decide) (by decide)

/-- Claim C6 counterexample: in the streaming entry point the guard is only
`if not topic_name` (src/agent.py line 604), so an assignment whose
topicName is the whitespace-only string " " is NOT skipped: it creates a
topic named " " and emits a topic event - a state change and an emission,
contradicting the claim for the streaming entry point. -/
theorem C6_whitespace_name_streaming_counterexample :
    stripIsEmpty " " = true ∧
    streamStep "u" ([], []) { topicName := " ", isNew := true, furtherReadings := [] }
      = ([{ name := " ", sources := ["u"] }], [{ topicName := " ", totalTopics := 1 }]) := by
  constructor <;> decide

/-- Claim C6 (amended): in the batch entry point an assignment whose
topicName is empty or whitespace-only causes no state change; in the
streaming entry point only an empty topicName is skipped (and then neither
the store nor the event list changes). -/
theorem C6_skip_amended (u : String) (mem : List Topic) (evs : List TopicEvent)
    (a : Assignment) :
    (stripIsEmpty a.topicName = true → processAssignment u mem a = mem) ∧
    (a.topicName = "" → streamStep u (mem, evs) a = (mem, evs)) := by
  constructor
  · intro h
    rw [processAssignment_eq, if_pos (Or.inr h)]
  · intro h
    rw [streamStep_eq, if_pos h]

/-- Claim C7 (code evaluation at the failing input): the further-reading
filter keeps EVERY url (first conjunct: it is the identity), because
`isValidUrl(url)` is called without `await` and the resulting coroutine
object is truthy; consequently a URL that any probe verdict would report
unreachable is still merged into the topic's sources, in the batch path
(second conjunct) and in the streaming path (third conjunct) alike. The
probe's verdict is never consulted, so unreachable URLs are not dropped. -/
theorem C7_unreachable_url_still_merged :
    (∀ urls : List String, filterFurtherReadings urls = urls) ∧
    processAssignment "https://item.example" []
        { topicName := "T", isNew := false,
          furtherReadings := ["https://unreachable.example/a"] }
      = [{ name := "T",
           sources := ["https://item.example", "https://unreachable.example/a"] }] ∧
    (streamStep "https://item.example" ([], [])
        { topicName := "T", isNew := true,
          furtherReadings := ["https://unreachable.example/a"] }).1
      = [{ name := "T",
           sources := ["https://item.example", "https://unreachable.example/a"] }] :=
  ⟨filterFurtherReadings_id, by decide, by decide⟩

/-- Claim C8: the reachability check returns a boolean for every outcome of
the request and never raises (it is a total function of the outcome): false
on a transport error, false on a timeout, and for a final response it
returns true exactly when the status is below 400 (the code's notion of a
success final status, `response.status < 400`). -/
theorem C8_probe_boolean_never_raises :
    isValidUrl ProbeOutcome.clientError = false ∧
    isValidUrl ProbeOutcome.timeoutError = false ∧
    ∀ status : Nat,
      (isValidUrl (ProbeOutcome.response status) = true ↔ status < 400) := by
  refine ⟨rfl, rfl, fun status => ?_⟩
  simp [isValidUrl]

/-- Claim C9: in the streaming entry point, over any sequence of content
items processed from the empty store, the emitted topic events correspond
one-to-one, in order, to the topics of the final store (so an event is
emitted exactly at each creation and never on a merge, in creation order),
and their totalTopics values are exactly 1, 2, ..., n: starting at 1 and
strictly increasing by 1 from each topic event to the next. -/
theorem C9_topic_events_creation_order
    (items : List (String × CategorizationResult)) :
    (runStreamCat items).2.map TopicEvent.totalTopics
        = (List.range (runStreamCat items).1.length).map (fun n => n + 1) ∧
    (runStreamCat items).2.map TopicEvent.topicName
        = (runStreamCat items).1.map Topic.name :=
  foldl_preserves StreamInv streamItem
    (fun st it h => streamItem_inv st it h) items ([], []) ⟨rfl, rfl⟩

/-- Claim C10: for an assignment with a non-empty topicName, the value of
the `isNew` flag is irrelevant: the resulting store (batch entry point) and
the resulting store-and-events pair (streaming entry point) are identical
with `isNew := true` and `isNew := false` - the outcome depends only on
whether a case-insensitive name match exists. -/
theorem C10_isNew_flag_irrelevant (u : String) (mem : List Topic)
    (evs : List TopicEvent) (a : Assignment) (_h : a.topicName ≠ "") :
    processAssignment u mem { a with isNew := true }
      = processAssignment u mem { a with isNew := false } ∧
    streamStep u (mem, evs) { a with isNew := true }
      = streamStep u (mem, evs) { a with isNew := false } := by
  constructor <;> rfl

theorem C10_isNew_flag_irrelevant_witness :
    processAssignment "u" [] { topicName := "T", isNew := true, furtherReadings := [] }
      = processAssignment "u" [] { topicName := "T", isNew := false, furtherReadings := [] } :=
  (C10_isNew_flag_irrelevant "u" [] []
    { topicName := "T", isNew := true, furtherReadings := [] } (by decide)).1

end NewsService
